import Mathlib

/-!
Verification of the identifier-resolution and request-normalization logic of
`download.py` (Albion Online item icon downloader).

Python strings are modelled as `List Char` (a Python string is a sequence of
code points).  All definitions are shallow embeddings of the corresponding
Python functions in `src/download.py`; external library behaviour
(`str.strip`, `str.casefold`, `int(...)`, `csv.reader`, `", ".join`) is
modelled for the fragment of inputs this program handles, as documented on
each definition.
-/

/-- A Python string: a sequence of code points. -/
abbrev Str := List Char

/-- Model of Python's whitespace class (the regex `\s` / `str.strip` set),
restricted to the ASCII whitespace characters. -/
def pyIsSpace (c : Char) : Bool :=
  c == ' ' || c == '\t' || c == '\n' || c == '\r' || c == '\x0b' || c == '\x0c'

/-- Model of Python `str.casefold`, per code point, restricted to ASCII:
uppercase ASCII letters map to their lowercase forms, everything else is
unchanged. -/
def lowerChar : Char → Char
  | 'A' => 'a' | 'B' => 'b' | 'C' => 'c' | 'D' => 'd' | 'E' => 'e'
  | 'F' => 'f' | 'G' => 'g' | 'H' => 'h' | 'I' => 'i' | 'J' => 'j'
  | 'K' => 'k' | 'L' => 'l' | 'M' => 'm' | 'N' => 'n' | 'O' => 'o'
  | 'P' => 'p' | 'Q' => 'q' | 'R' => 'r' | 'S' => 's' | 'T' => 't'
  | 'U' => 'u' | 'V' => 'v' | 'W' => 'w' | 'X' => 'x' | 'Y' => 'y'
  | 'Z' => 'z'
  | c => c

/-- Python `str.lstrip()` (no argument): remove leading whitespace. -/
def pyLstrip (s : Str) : Str := s.dropWhile pyIsSpace

/-- Python `str.rstrip()` (no argument): remove trailing whitespace. -/
def pyRstrip (s : Str) : Str := (s.reverse.dropWhile pyIsSpace).reverse

/-- Python `str.strip()` (no argument): remove leading and trailing
whitespace. -/
def pyStrip (s : Str) : Str := pyRstrip (pyLstrip s)

/-- Model of `_NAME_SPACE_RX.sub(" ", s)` (the regex `\s+` replaced by a
single space): the flag records whether the previous character was part of a
whitespace run that already produced its single `' '`. -/
def collapseAux (prevWs : Bool) : Str → Str
  | [] => []
  | c :: cs =>
    if pyIsSpace c then
      if prevWs then collapseAux true cs else ' ' :: collapseAux true cs
    else c :: collapseAux false cs

/-- `_NAME_SPACE_RX.sub(" ", s)`: every maximal whitespace run becomes one
space. -/
def collapseWs (s : Str) : Str := collapseAux false s

/-- `norm_name` from download.py:
`_NAME_SPACE_RX.sub(" ", name.strip()).casefold()`. -/
def norm_name (name : Str) : Str := (collapseWs (pyStrip name)).map lowerChar

/-- `safe_file_stem` from download.py:
`text.replace("/", "-").replace("\\", "-")`.  `str.replace` with
single-character arguments is a per-character substitution. -/
def replaceChar (a b : Char) (s : Str) : Str :=
  s.map (fun c => if c = a then b else c)

def safe_file_stem (text : Str) : Str :=
  replaceChar '\\' '-' (replaceChar '/' '-' text)

/-- The regex `^T([1-8])_` matches: first char `T`, second a digit `1`-`8`,
third `_`. -/
def hasTierPrefix : Str → Bool
  | 'T' :: d :: '_' :: _ => decide ('1' ≤ d ∧ d ≤ '8')
  | _ => false

/-- `extract_tier_from_ident` from download.py: the digit of a leading
`T<digit 1-8>_` token, `-1` when there is none. -/
def extract_tier_from_ident : Str → Int
  | 'T' :: d :: '_' :: _ =>
    if '1' ≤ d ∧ d ≤ '8' then (d.toNat : Int) - 48 else -1
  | _ => -1

/-- Decimal digits of a natural number, as in Python `str(n)`. -/
def natToStr (n : Nat) : Str := Nat.toDigits 10 n

/-- Python `str(i)` for an integer. -/
def intToStr (i : Int) : Str :=
  if i < 0 then '-' :: natToStr (-i).toNat else natToStr i.toNat

/-- `BASE_URL` from download.py. -/
def BASE_URL : Str := "https://render.albiononline.com/v1/item/".data

/-- `QUALITY_WORD.get(q, str(q))` from download.py: the quality-word
dictionary with `str(q)` as the default. -/
def qualityWordGet (q : Int) : Str :=
  if q = 1 then "Common".data
  else if q = 2 then "Good".data
  else if q = 3 then "Outstanding".data
  else if q = 4 then "Excellent".data
  else if q = 5 then "Masterpiece".data
  else intToStr q

/-- `build_identifier` from download.py.  The Python function raises
`ValueError` when the identifier has no tier token and `tier == -1`; this is
modelled with `Except`.  Returns `(identifier_for_url, tier_for_filename)`. -/
def build_identifier (base_ident : Str) (tier : Int) (enchant : Int) :
    Except Str (Str × Int) :=
  if hasTierPrefix base_ident then
    let tier_for_name := extract_tier_from_ident base_ident
    let core := base_ident
    let ident := if enchant = 0 then core else core ++ "@".data ++ intToStr enchant
    .ok (ident, tier_for_name)
  else if tier = -1 then
    .error "Tier is required for items without a T1_-T8_ identifier.".data
  else
    let tier_for_name := tier
    let core := "T".data ++ intToStr tier ++ "_".data ++ base_ident
    let ident := if enchant = 0 then core else core ++ "@".data ++ intToStr enchant
    .ok (ident, tier_for_name)

/-- `build_url` from download.py. -/
def build_url (identifier : Str) (quality : Int) : Str :=
  if quality = 1 then BASE_URL ++ identifier ++ ".png".data
  else BASE_URL ++ identifier ++ ".png?quality=".data ++ intToStr quality

/-- `build_filename` from download.py. -/
def build_filename (name : Str) (tier enchant quality : Int) : Str :=
  let stem := safe_file_stem name ++ " ".data ++ intToStr tier
  let stem := if enchant > 0 then stem ++ ".".data ++ intToStr enchant else stem
  let stem := if quality > 1 then stem ++ " ".data ++ qualityWordGet quality else stem
  stem ++ ".png".data

/-- The digits-with-underscores body of a Python integer literal:
`digit (("_")? digit)*`.  Accumulates the decimal value. -/
def pyIntDigits (acc : Nat) : Str → Option Nat
  | [] => some acc
  | c :: cs =>
    if c.isDigit then pyIntDigits (10 * acc + (c.toNat - 48)) cs
    else if c = '_' then
      match cs with
      | d :: cs2 =>
        if d.isDigit then pyIntDigits (10 * acc + (d.toNat - 48)) cs2 else none
      | [] => none
    else none

/-- Model of Python `int(s)` for base 10: optional surrounding whitespace, an
optional sign, then decimal digits with optional single underscores between
digits.  `none` models the `ValueError`. -/
def pyInt (s : Str) : Option Int :=
  match pyStrip s with
  | '+' :: d :: rest =>
    if d.isDigit then (pyIntDigits (d.toNat - 48) rest).map Int.ofNat else none
  | '-' :: d :: rest =>
    if d.isDigit then (pyIntDigits (d.toNat - 48) rest).map (fun n => -(n : Int))
    else none
  | d :: rest =>
    if d.isDigit then (pyIntDigits (d.toNat - 48) rest).map Int.ofNat else none
  | [] => none

/-- Model of one `csv.reader` row for a quote-free line (the request and
dataset lines this program handles contain no quoting): an empty line yields
an empty row, otherwise the line splits on commas. -/
def csvRowSimple (line : Str) : List Str :=
  if line = [] then [] else line.splitOn ','

/-- Python `sep.join(parts)`. -/
def pyJoin (sep : Str) : List Str → Str
  | [] => []
  | [x] => x
  | x :: y :: xs => x ++ sep ++ pyJoin sep (y :: xs)

/-- One parsed request line: `(name, tier, enchant, quality, original_line)`
from `parse_requests_file`.  `tier = -1` is the "omitted" sentinel. -/
structure Req where
  name : Str
  tier : Int
  enchant : Int
  quality : Int
  original : Str
deriving DecidableEq

/-- Outcome of `parse_requests_file`'s per-row processing: rows skipped
silently (blank / comment / empty name), rows dropped by the range
validation (with a `[WARN]` diagnostic), and accepted requests. -/
inductive RowOutcome where
  | skipped
  | dropped
  | accepted (r : Req)
deriving DecidableEq

/-- `line.lstrip().startswith("#")`. -/
def startsWithHash : Str → Bool
  | '#' :: _ => true
  | _ => false

/-- The tier field of `parse_requests_file`:
`-1` sentinel when absent/empty/malformed, else the parsed integer
(lines 110-117 of download.py). -/
def tierOfCols (cols : List Str) : Int :=
  match cols[1]? with
  | some t => if t = [] then -1 else (pyInt t).getD (-1)
  | none => -1

/-- The enchant field: default `0` when absent/empty/malformed
(lines 119-124 of download.py). -/
def enchantOfCols (cols : List Str) : Int :=
  match cols[2]? with
  | some e => if e = [] then 0 else (pyInt e).getD 0
  | none => 0

/-- The quality field: default `1` when absent/empty/malformed
(lines 126-131 of download.py). -/
def qualityOfCols (cols : List Str) : Int :=
  match cols[3]? with
  | some q => if q = [] then 1 else (pyInt q).getD 1
  | none => 1

/-- The per-row body of the `parse_requests_file` loop
(lines 97-143 of download.py). -/
def parseRow (row : List Str) : RowOutcome :=
  if row = [] then .skipped
  else if row.length = 1 ∧ startsWithHash (pyLstrip (row.headD [])) then .skipped
  else
    let cols := row.map pyStrip
    match cols with
    | [] => .skipped
    | name :: _ =>
      if name = [] then .skipped
      else
        let original_line := pyJoin ", ".data cols
        let tier := tierOfCols cols
        let enchant := enchantOfCols cols
        let quality := qualityOfCols cols
        if tier ≠ -1 ∧ ¬(1 ≤ tier ∧ tier ≤ 8) then .dropped
        else if ¬(0 ≤ enchant ∧ enchant ≤ 4) then .dropped
        else if ¬(1 ≤ quality ∧ quality ≤ 5) then .dropped
        else .accepted ⟨name, tier, enchant, quality, original_line⟩

/-- `parse_requests_file` over the rows of an existing file, with the CSV
reader modelled by `csvRowSimple`. -/
def parseRequestsLines (lines : List Str) : List Req :=
  (lines.map csvRowSimple).filterMap fun row =>
    match parseRow row with
    | .accepted r => some r
    | _ => none

/-- `parse_requests_file`: a missing file prints `[ERROR]` and yields no
entries (lines 91-93 of download.py). -/
def parseRequestsFile (fileExists : Bool) (lines : List Str) : List Req :=
  if fileExists then parseRequestsLines lines else []

/-- Failure classes of the per-entry main loop: unknown name, missing tier,
an exception from `build_identifier` (caught by the `except` like any other),
and an exception from `download_one`. -/
inductive FailReason where
  | unknownItemName
  | tierRequired
  | buildFailed
  | fetchFailed
deriving DecidableEq

/-- A successfully resolved entry: identifier, fetch URL, display filename,
the tier used for the filename, and whether the embedded-tier-override
`[WARN]` diagnostic was printed. -/
structure ResOk where
  ident : Str
  url : Str
  filename : Str
  tierForFilename : Int
  warnedOverride : Bool
deriving DecidableEq

/-- The resolution part of one iteration of the main loop
(lines 217-242 of download.py): lookup, the embedded-tier / explicit-tier
decision, and the construction of identifier, URL and filename.  A failure
carries the reason and the `original_line` appended to `failed_lines`. -/
def resolveEntry (m : List (Str × Str)) (r : Req) :
    Except (FailReason × Str) ResOk :=
  match m.lookup (norm_name r.name) with
  | none => .error (.unknownItemName, r.original)
  | some base_ident =>
    let warned := decide (hasTierPrefix base_ident = true ∧ r.tier ≠ -1 ∧
      r.tier ≠ extract_tier_from_ident base_ident)
    if hasTierPrefix base_ident = false ∧ r.tier = -1 then
      .error (.tierRequired, r.original)
    else
      match build_identifier base_ident r.tier r.enchant with
      | .error _ => .error (.buildFailed, r.original)
      | .ok (ident, tier_for_filename) =>
        .ok ⟨ident, build_url ident r.quality,
             build_filename r.name tier_for_filename r.enchant r.quality,
             tier_for_filename, warned⟩

/-- One full iteration of the main loop including the `download_one` call,
whose success is modelled by the oracle `fetchOk` on the URL. -/
def processEntry (m : List (Str × Str)) (fetchOk : Str → Bool) (r : Req) :
    Except (FailReason × Str) ResOk :=
  match resolveEntry m r with
  | .error e => .error e
  | .ok out => if fetchOk out.url then .ok out else .error (.fetchFailed, r.original)

/-- The observable outcome of a run of `main`: the process exit code, the
display filenames written (in order), and the contents of the rewritten
request file (`none` when the file was never rewritten). -/
structure RunOutcome where
  exitCode : Nat
  downloaded : List Str
  rewritten : Option (List Str)
deriving DecidableEq

/-- `main` from download.py (lines 197-260), over: the already-built lookup
mapping (a key-value store mapping normalized names to identifiers,
`List.lookup` on the association list), whether the input file exists, its
lines, and the fetch oracle.  An empty mapping exits with code 1; no valid
entries returns early without rewriting; otherwise every entry is processed
in order and the file is rewritten with `line.rstrip() + "\n"` for each
failed line. -/
def mainRun (m : List (Str × Str)) (fileExists : Bool) (lines : List Str)
    (fetchOk : Str → Bool) : RunOutcome :=
  if m = [] then ⟨1, [], none⟩
  else
    let entries := parseRequestsFile fileExists lines
    if entries = [] then ⟨0, [], none⟩
    else
      let results := entries.map (processEntry m fetchOk)
      let downloaded := results.filterMap fun x =>
        match x with
        | .ok out => some out.filename
        | .error _ => none
      let failed_lines := results.filterMap fun x =>
        match x with
        | .ok _ => none
        | .error (_, o) => some o
      ⟨0, downloaded, some (failed_lines.map pyRstrip)⟩

/-- A fragment of the embedded dataset `ITEMS_CSV`, as `parse_embedded_items`
stores it: keys are normalized display names, values the base identifiers
(dataset lines 528, 430, 476 of download.py). -/
def itemsSample : List (Str × Str) :=
  [(norm_name "Mule".data, "T2_MOUNT_MULE".data),
   (norm_name "Guardian Helmet".data, "HEAD_PLATE_SET3".data),
   (norm_name "Cleric Robe".data, "ARMOR_CLOTH_SET2".data)]

/-! ### Facts about the character model -/

theorem lowerChar_pyIsSpace (c : Char) : pyIsSpace (lowerChar c) = pyIsSpace c := by
  unfold lowerChar
  split <;> rfl

theorem lowerChar_cases (c : Char) :
    lowerChar c = c ∨ lowerChar c ∈ "abcdefghijklmnopqrstuvwxyz".data := by
  unfold lowerChar
  split
  case _ => exact Or.inr (by decide)
  case _ => exact Or.inr (by decide)
  all_goals first
    | exact Or.inr (by decide)
    | exact Or.inl rfl

theorem lowerChar_lowerChar (c : Char) : lowerChar (lowerChar c) = lowerChar c := by
  rcases lowerChar_cases c with h | h
  · rw [h]; exact h
  · generalize hq : lowerChar c = d at h ⊢
    fin_cases h <;> rfl

/-! ### List scanning helper lemmas -/

theorem takeWhile_append_of_all {p : Char → Bool} {a : Str} (b : Str)
    (h : a.all p = true) : (a ++ b).takeWhile p = a ++ b.takeWhile p := by
  induction a with
  | nil => simp
  | cons x xs ih =>
    simp only [List.all_cons, Bool.and_eq_true] at h
    simp [List.takeWhile_cons, h.1, ih h.2]

theorem dropWhile_append_of_all {p : Char → Bool} {a : Str} (b : Str)
    (h : a.all p = true) : (a ++ b).dropWhile p = b.dropWhile p := by
  induction a with
  | nil => simp
  | cons x xs ih =>
    simp only [List.all_cons, Bool.and_eq_true] at h
    simp [List.dropWhile_cons, h.1, ih h.2]

theorem takeWhile_append_of_not_all {p : Char → Bool} {a : Str} (b : Str)
    (h : ¬ a.all p = true) : (a ++ b).takeWhile p = a.takeWhile p := by
  induction a with
  | nil => simp at h
  | cons x xs ih =>
    by_cases hx : p x = true
    · simp only [List.all_cons, Bool.and_eq_true] at h
      have hxs : ¬ xs.all p = true := fun hc => h ⟨hx, hc⟩
      simp [List.takeWhile_cons, hx, ih hxs]
    · simp [List.takeWhile_cons, hx]

theorem dropWhile_append_of_not_all {p : Char → Bool} {a : Str} (b : Str)
    (h : ¬ a.all p = true) : (a ++ b).dropWhile p = a.dropWhile p ++ b := by
  induction a with
  | nil => simp at h
  | cons x xs ih =>
    by_cases hx : p x = true
    · simp only [List.all_cons, Bool.and_eq_true] at h
      have hxs : ¬ xs.all p = true := fun hc => h ⟨hx, hc⟩
      simp [List.dropWhile_cons, hx, ih hxs]
    · simp [List.dropWhile_cons, hx]

theorem dropWhile_eq_self_of_all_not {p : Char → Bool} {a : Str}
    (h : a.all (fun c => !p c) = true) : a.dropWhile p = a := by
  cases a with
  | nil => rfl
  | cons x xs =>
    simp only [List.all_cons, Bool.and_eq_true] at h
    have hx : p x = false := by
      rcases h with ⟨h1, _⟩
      cases hpx : p x
      · rfl
      · rw [hpx] at h1; simp at h1
    simp [List.dropWhile_cons, hx]

theorem dropWhile_eq_nil_of_all {p : Char → Bool} {a : Str}
    (h : a.all p = true) : a.dropWhile p = [] := by
  induction a with
  | nil => rfl
  | cons x xs ih =>
    simp only [List.all_cons, Bool.and_eq_true] at h
    simp [List.dropWhile_cons, h.1, ih h.2]

theorem takeWhile_eq_self_of_all {p : Char → Bool} {a : Str}
    (h : a.all p = true) : a.takeWhile p = a := by
  induction a with
  | nil => rfl
  | cons x xs ih =>
    simp only [List.all_cons, Bool.and_eq_true] at h
    simp [List.takeWhile_cons, h.1, ih h.2]

theorem all_takeWhile (p : Char → Bool) (l : Str) :
    (l.takeWhile p).all p = true := by
  induction l with
  | nil => rfl
  | cons x xs ih =>
    by_cases hx : p x = true
    · simp [List.takeWhile_cons, hx, ih]
    · simp [List.takeWhile_cons, hx]

theorem dropWhile_head_false {p : Char → Bool} {l : Str} {d : Char} {ds : Str}
    (h : l.dropWhile p = d :: ds) : p d = false := by
  induction l with
  | nil => simp at h
  | cons x xs ih =>
    by_cases hx : p x = true
    · rw [List.dropWhile_cons, if_pos hx] at h
      exact ih h
    · rw [List.dropWhile_cons, if_neg hx] at h
      injection h with h1 h2
      subst h1
      cases hpx : p x
      · rfl
      · exact absurd hpx hx

/-! ### Facts about stripping -/

theorem pyRstrip_eq_nil_iff {s : Str} : pyRstrip s = [] ↔ s.all pyIsSpace = true := by
  unfold pyRstrip
  rw [List.reverse_eq_nil_iff, List.dropWhile_eq_nil_iff]
  simp [List.all_eq_true]

theorem pyRstrip_append (a b : Str) :
    pyRstrip (a ++ b) = if pyRstrip b = [] then pyRstrip a else a ++ pyRstrip b := by
  by_cases hb : pyRstrip b = []
  · have hall : b.reverse.all pyIsSpace = true := by
      rw [List.all_reverse]; exact pyRstrip_eq_nil_iff.mp hb
    rw [if_pos hb]
    unfold pyRstrip
    rw [List.reverse_append, dropWhile_append_of_all _ hall]
  · have hall : ¬ b.reverse.all pyIsSpace = true := by
      rw [List.all_reverse]
      exact fun hc => hb (pyRstrip_eq_nil_iff.mpr hc)
    rw [if_neg hb]
    unfold pyRstrip
    rw [List.reverse_append, dropWhile_append_of_not_all _ hall, List.reverse_append,
      List.reverse_reverse]

theorem pyRstrip_cons_not_ws {c : Char} (t : Str) (hc : pyIsSpace c = false) :
    pyRstrip (c :: t) = c :: pyRstrip t := by
  have h := pyRstrip_append [c] t
  by_cases ht : pyRstrip t = []
  · rw [if_pos ht] at h
    rw [List.singleton_append] at h
    rw [h, ht]
    unfold pyRstrip
    simp [hc]
  · rw [if_neg ht] at h
    rw [List.singleton_append] at h
    rw [h, List.singleton_append]

theorem pyRstrip_cons_ws {c : Char} (t : Str) (hc : pyIsSpace c = true) :
    pyRstrip (c :: t) = if pyRstrip t = [] then [] else c :: pyRstrip t := by
  have h := pyRstrip_append [c] t
  rw [List.singleton_append] at h
  by_cases ht : pyRstrip t = []
  · rw [if_pos ht] at h ⊢
    rw [h]
    unfold pyRstrip
    simp [hc]
  · rw [if_neg ht] at h ⊢
    rw [h, List.singleton_append]

theorem pyRstrip_of_all_not_ws {s : Str} (h : s.all (fun c => !pyIsSpace c) = true) :
    pyRstrip s = s := by
  unfold pyRstrip
  rw [dropWhile_eq_self_of_all_not (by rw [List.all_reverse]; exact h),
    List.reverse_reverse]

theorem pyLstrip_cons_ws {c : Char} (t : Str) (hc : pyIsSpace c = true) :
    pyLstrip (c :: t) = pyLstrip t := by
  unfold pyLstrip
  simp [List.dropWhile_cons, hc]

theorem pyLstrip_cons_not_ws {c : Char} (t : Str) (hc : pyIsSpace c = false) :
    pyLstrip (c :: t) = c :: t := by
  unfold pyLstrip
  simp [List.dropWhile_cons, hc]

theorem pyLstrip_pyRstrip_comm (s : Str) :
    pyLstrip (pyRstrip s) = pyRstrip (pyLstrip s) := by
  induction s with
  | nil => rfl
  | cons c t ih =>
    by_cases hc : pyIsSpace c = true
    · rw [pyRstrip_cons_ws t hc, pyLstrip_cons_ws t hc]
      by_cases ht : pyRstrip t = []
      · rw [if_pos ht, ← ih, ht]
      · rw [if_neg ht, pyLstrip_cons_ws _ hc, ih]
    · have hc' : pyIsSpace c = false := by
        cases hpc : pyIsSpace c
        · rfl
        · exact absurd hpc hc
      rw [pyRstrip_cons_not_ws t hc', pyLstrip_cons_not_ws _ hc',
        pyLstrip_cons_not_ws t hc', pyRstrip_cons_not_ws t hc']

theorem pyStrip_cons_ws {c : Char} (t : Str) (hc : pyIsSpace c = true) :
    pyStrip (c :: t) = pyStrip t := by
  unfold pyStrip
  rw [pyLstrip_cons_ws t hc]

theorem pyStrip_cons_not_ws {c : Char} (t : Str) (hc : pyIsSpace c = false) :
    pyStrip (c :: t) = c :: pyRstrip t := by
  unfold pyStrip
  rw [pyLstrip_cons_not_ws t hc, pyRstrip_cons_not_ws t hc]

/-! ### Facts about whitespace collapsing -/

theorem collapseAux_nil (b : Bool) : collapseAux b [] = [] := rfl

theorem collapseAux_cons_ws_true {c : Char} (cs : Str) (hc : pyIsSpace c = true) :
    collapseAux true (c :: cs) = collapseAux true cs := by
  simp [collapseAux, hc]

theorem collapseAux_cons_ws_false {c : Char} (cs : Str) (hc : pyIsSpace c = true) :
    collapseAux false (c :: cs) = ' ' :: collapseAux true cs := by
  simp [collapseAux, hc]

theorem collapseAux_cons_not_ws {c : Char} (b : Bool) (cs : Str)
    (hc : pyIsSpace c = false) :
    collapseAux b (c :: cs) = c :: collapseAux false cs := by
  simp [collapseAux, hc]

theorem collapseAux_true_eq (s : Str) :
    collapseAux true s = collapseWs (pyLstrip s) := by
  induction s with
  | nil => rfl
  | cons c t ih =>
    by_cases hc : pyIsSpace c = true
    · rw [pyLstrip_cons_ws t hc]
      unfold collapseAux
      rw [if_pos hc, if_pos rfl, ih]
    · have hc' : pyIsSpace c = false := by
        cases hpc : pyIsSpace c
        · rfl
        · exact absurd hpc hc
      rw [pyLstrip_cons_not_ws t hc']
      unfold collapseWs collapseAux
      rw [if_neg (by simp [hc']), if_neg (by simp [hc'])]

theorem collapseAux_not_ws_prefix {a : Str} (t : Str)
    (h : a.all (fun c => !pyIsSpace c) = true) :
    collapseAux false (a ++ t) = a ++ collapseAux false t := by
  induction a with
  | nil => rfl
  | cons x xs ih =>
    simp only [List.all_cons, Bool.and_eq_true] at h
    have hx : pyIsSpace x = false := by
      rcases h with ⟨h1, _⟩
      cases hpx : pyIsSpace x
      · rfl
      · rw [hpx] at h1; simp at h1
    rw [List.cons_append, collapseAux_cons_not_ws false _ hx, ih h.2,
      List.cons_append]

theorem collapseWs_of_all_not_ws {s : Str}
    (h : s.all (fun c => !pyIsSpace c) = true) : collapseWs s = s := by
  have h2 := collapseAux_not_ws_prefix [] h
  rw [List.append_nil] at h2
  unfold collapseWs
  rw [h2, collapseAux_nil, List.append_nil]

/-! ### Splitting a string into its whitespace-separated words -/

/-- The whitespace-separated words of a string (a proof device used to
characterise `norm_name`, not part of the program). -/
def wordsOf : Str → List Str
  | [] => []
  | c :: cs =>
    if pyIsSpace c then wordsOf cs
    else (c :: cs.takeWhile (fun x => !pyIsSpace x)) ::
      wordsOf (cs.dropWhile (fun x => !pyIsSpace x))
termination_by s => s.length
decreasing_by
  · simp
  · have := (@List.dropWhile_sublist Char cs (fun x => !pyIsSpace x)).length_le
    simp only [List.length_cons]
    omega

theorem wordsOf_cons_ws {c : Char} (cs : Str) (hc : pyIsSpace c = true) :
    wordsOf (c :: cs) = wordsOf cs := by
  rw [wordsOf, if_pos hc]

theorem wordsOf_cons_not_ws {c : Char} (cs : Str) (hc : pyIsSpace c = false) :
    wordsOf (c :: cs) = (c :: cs.takeWhile (fun x => !pyIsSpace x)) ::
      wordsOf (cs.dropWhile (fun x => !pyIsSpace x)) := by
  rw [wordsOf, if_neg (by simp [hc])]

theorem bool_eq_false {b : Bool} (h : ¬ b = true) : b = false := by
  cases b
  · rfl
  · exact absurd rfl h

theorem wordsOf_eq_nil_iff {s : Str} : wordsOf s = [] ↔ s.all pyIsSpace = true := by
  induction s with
  | nil => simp [wordsOf]
  | cons c cs ih =>
    by_cases hc : pyIsSpace c = true
    · rw [wordsOf_cons_ws cs hc, List.all_cons, hc]
      simpa using ih
    · rw [wordsOf_cons_not_ws cs (bool_eq_false hc), List.all_cons,
        bool_eq_false hc]
      simp

theorem wordsOf_allws_append {r : Str} (b : Str) (h : r.all pyIsSpace = true) :
    wordsOf (r ++ b) = wordsOf b := by
  induction r with
  | nil => rfl
  | cons x xs ih =>
    simp only [List.all_cons, Bool.and_eq_true] at h
    rw [List.cons_append, wordsOf_cons_ws _ h.1, ih h.2]

theorem wordsOf_sep_append (a : Str) {r : Str} (b : Str) (hr : r ≠ [])
    (hws : r.all pyIsSpace = true) :
    wordsOf (a ++ r ++ b) = wordsOf a ++ wordsOf b := by
  induction a using wordsOf.induct with
  | case1 =>
    rw [List.nil_append, wordsOf, List.nil_append, wordsOf_allws_append b hws]
  | case2 c cs hc ih =>
    rw [List.cons_append, List.cons_append, wordsOf_cons_ws _ hc,
      wordsOf_cons_ws _ hc]
    exact ih
  | case3 c cs hc ih =>
    have hc' : pyIsSpace c = false := bool_eq_false hc
    obtain ⟨d, r2, rfl⟩ : ∃ d r2, r = d :: r2 := by
      cases r with
      | nil => exact absurd rfl hr
      | cons d r2 => exact ⟨d, r2, rfl⟩
    have hd : pyIsSpace d = true := by
      rw [List.all_cons, Bool.and_eq_true] at hws
      exact hws.1
    rw [List.cons_append, List.cons_append, wordsOf_cons_not_ws _ hc',
      wordsOf_cons_not_ws _ hc', List.append_assoc cs]
    by_cases hall : cs.all (fun x => !pyIsSpace x) = true
    · rw [takeWhile_append_of_all _ hall, dropWhile_append_of_all _ hall]
      rw [List.cons_append, List.takeWhile_cons, if_neg (by simp [hd]),
        List.append_nil]
      rw [List.cons_append, List.dropWhile_cons, if_neg (by simp [hd])]
      rw [← List.cons_append d r2 b, wordsOf_allws_append b hws]
      rw [takeWhile_eq_self_of_all hall, dropWhile_eq_nil_of_all ?hcs]
      case hcs =>
        rw [List.all_eq_true] at hall ⊢
        intro x hx
        have := hall x hx
        simpa using this
      rw [wordsOf]
      simp
    · rw [takeWhile_append_of_not_all _ hall, dropWhile_append_of_not_all _ hall]
      rw [← List.append_assoc, ih]
      simp

theorem wordsOf_single {w : Str} (hne : w ≠ [])
    (hnw : w.all (fun c => !pyIsSpace c) = true) : wordsOf w = [w] := by
  cases w with
  | nil => exact absurd rfl hne
  | cons c cs =>
    simp only [List.all_cons, Bool.and_eq_true] at hnw
    have hc : pyIsSpace c = false := by
      rcases hnw with ⟨h1, _⟩
      cases hpc : pyIsSpace c
      · rfl
      · rw [hpc] at h1; simp at h1
    rw [wordsOf_cons_not_ws cs hc, takeWhile_eq_self_of_all hnw.2,
      dropWhile_eq_nil_of_all hnw.2, wordsOf]

theorem wordsOf_mem_wf {s : Str} {w : Str} (hw : w ∈ wordsOf s) :
    w ≠ [] ∧ w.all (fun c => !pyIsSpace c) = true := by
  induction s using wordsOf.induct with
  | case1 => simp [wordsOf] at hw
  | case2 c cs hc ih =>
    rw [wordsOf_cons_ws cs hc] at hw
    exact ih hw
  | case3 c cs hc ih =>
    have hc' : pyIsSpace c = false := bool_eq_false hc
    rw [wordsOf_cons_not_ws cs hc', List.mem_cons] at hw
    rcases hw with hw | hw
    · subst hw
      refine ⟨by simp, ?_⟩
      rw [List.all_cons, Bool.and_eq_true]
      exact ⟨by simp [hc'], all_takeWhile _ cs⟩
    · exact ih hw

theorem wordsOf_map {f : Char → Char} (hf : ∀ c, pyIsSpace (f c) = pyIsSpace c)
    (s : Str) : wordsOf (s.map f) = (wordsOf s).map (List.map f) := by
  have hpf : (fun x => !pyIsSpace x) ∘ f = fun x => !pyIsSpace x := by
    funext x
    simp [Function.comp, hf]
  induction s using wordsOf.induct with
  | case1 => simp [wordsOf]
  | case2 c cs hc ih =>
    rw [List.map_cons, wordsOf_cons_ws _ (by rw [hf]; exact hc),
      wordsOf_cons_ws _ hc, ih]
  | case3 c cs hc ih =>
    have hc' : pyIsSpace c = false := bool_eq_false hc
    rw [List.map_cons, wordsOf_cons_not_ws _ (by rw [hf]; exact hc'),
      wordsOf_cons_not_ws _ hc', List.takeWhile_map, List.dropWhile_map, hpf,
      ih, List.map_cons, List.map_cons]

/-! ### Facts about joining -/

theorem pyJoin_map_lower (W : List Str) :
    (pyJoin [' '] W).map lowerChar = pyJoin [' '] (W.map (List.map lowerChar)) := by
  induction W with
  | nil => rfl
  | cons x xs ih =>
    cases xs with
    | nil => rfl
    | cons y ys =>
      have h3 : pyJoin [' '] (x :: y :: ys) = x ++ [' '] ++ pyJoin [' '] (y :: ys) := rfl
      have h5 : pyJoin [' '] ((x :: y :: ys).map (List.map lowerChar)) =
          x.map lowerChar ++ [' '] ++
            pyJoin [' '] ((y :: ys).map (List.map lowerChar)) := rfl
      rw [h3, h5, List.map_append, List.map_append, ih]
      rfl

theorem wordsOf_pyJoin (W : List Str)
    (h : ∀ w ∈ W, w ≠ [] ∧ w.all (fun c => !pyIsSpace c) = true) :
    wordsOf (pyJoin [' '] W) = W := by
  induction W with
  | nil => simp [wordsOf, pyJoin]
  | cons x xs ih =>
    cases xs with
    | nil =>
      have hx := h x (by simp)
      have h1 : pyJoin [' '] [x] = x := rfl
      rw [h1, wordsOf_single hx.1 hx.2]
    | cons y ys =>
      have hx := h x (by simp)
      have h3 : pyJoin [' '] (x :: y :: ys) = x ++ [' '] ++ pyJoin [' '] (y :: ys) := rfl
      rw [h3]
      have hsep : wordsOf (x ++ [' '] ++ pyJoin [' '] (y :: ys)) =
          wordsOf x ++ wordsOf (pyJoin [' '] (y :: ys)) :=
        wordsOf_sep_append x (pyJoin [' '] (y :: ys)) (by simp) (by decide)
      rw [hsep, wordsOf_single hx.1 hx.2,
        ih (fun w hw => h w (List.mem_cons_of_mem x hw)), List.singleton_append]

/-- The central characterisation: stripping then collapsing whitespace is
exactly joining the whitespace-separated words with single spaces. -/
theorem collapse_pyStrip (s : Str) :
    collapseWs (pyStrip s) = pyJoin [' '] (wordsOf s) := by
  cases s with
  | nil => simp [wordsOf, pyStrip, pyLstrip, pyRstrip, collapseWs, collapseAux, pyJoin]
  | cons c cs =>
    by_cases hc : pyIsSpace c = true
    · rw [pyStrip_cons_ws cs hc, wordsOf_cons_ws cs hc]
      exact collapse_pyStrip cs
    · have hc' : pyIsSpace c = false := bool_eq_false hc
      rw [pyStrip_cons_not_ws cs hc', wordsOf_cons_not_ws cs hc']
      unfold collapseWs
      rw [collapseAux_cons_not_ws false _ hc']
      have htk_all : (cs.takeWhile (fun x => !pyIsSpace x)).all
          (fun x => !pyIsSpace x) = true := all_takeWhile _ cs
      have hcs : cs.takeWhile (fun x => !pyIsSpace x) ++
          cs.dropWhile (fun x => !pyIsSpace x) = cs :=
        List.takeWhile_append_dropWhile _ cs
      have hra := pyRstrip_append (cs.takeWhile (fun x => !pyIsSpace x))
        (cs.dropWhile (fun x => !pyIsSpace x))
      rw [hcs] at hra
      by_cases hdp : pyRstrip (cs.dropWhile (fun x => !pyIsSpace x)) = []
      · rw [if_pos hdp] at hra
        rw [hra, pyRstrip_of_all_not_ws htk_all]
        have hwnil : wordsOf (cs.dropWhile (fun x => !pyIsSpace x)) = [] := by
          rw [wordsOf_eq_nil_iff]
          exact pyRstrip_eq_nil_iff.mp hdp
        rw [hwnil]
        have hj : pyJoin [' '] [c :: cs.takeWhile (fun x => !pyIsSpace x)] =
            c :: cs.takeWhile (fun x => !pyIsSpace x) := rfl
        rw [hj]
        have hcoll := collapseWs_of_all_not_ws htk_all
        unfold collapseWs at hcoll
        rw [hcoll]
      · rw [if_neg hdp] at hra
        obtain ⟨d, ds, hdds⟩ : ∃ d ds,
            cs.dropWhile (fun x => !pyIsSpace x) = d :: ds := by
          cases hx : cs.dropWhile (fun x => !pyIsSpace x) with
          | nil => rw [hx] at hdp; exact absurd rfl hdp
          | cons d ds => exact ⟨d, ds, rfl⟩
        have hd : pyIsSpace d = true := by
          have := dropWhile_head_false hdds
          simpa using this
        rw [hdds] at hdp hra ⊢
        rw [pyRstrip_cons_ws ds hd] at hdp hra
        have hds : ¬ pyRstrip ds = [] := by
          intro hx
          rw [if_pos hx] at hdp
          exact hdp rfl
        rw [if_neg hds] at hra
        have hlen : ds.length < cs.length + 1 := by
          have h1 := (@List.dropWhile_sublist Char cs (fun x => !pyIsSpace x)).length_le
          rw [hdds] at h1
          simp only [List.length_cons] at h1
          omega
        rw [hra, collapseAux_not_ws_prefix _ htk_all,
          collapseAux_cons_ws_false _ hd, collapseAux_true_eq,
          pyLstrip_pyRstrip_comm]
        have hrec : collapseWs (pyStrip ds) = pyJoin [' '] (wordsOf ds) :=
          collapse_pyStrip ds
        unfold pyStrip at hrec
        rw [hrec, wordsOf_cons_ws ds hd]
        obtain ⟨w, ws2, hw⟩ : ∃ w ws2, wordsOf ds = w :: ws2 := by
          cases hx : wordsOf ds with
          | nil =>
            rw [wordsOf_eq_nil_iff] at hx
            exact absurd (pyRstrip_eq_nil_iff.mpr hx) hds
          | cons w ws2 => exact ⟨w, ws2, rfl⟩
        rw [hw]
        have hj : pyJoin [' '] ((c :: cs.takeWhile (fun x => !pyIsSpace x)) ::
            w :: ws2) = (c :: cs.takeWhile (fun x => !pyIsSpace x)) ++ [' '] ++
            pyJoin [' '] (w :: ws2) := rfl
        rw [hj]
        simp
termination_by s.length
decreasing_by
  all_goals simp only [List.length_cons]
  · omega
  · omega

/-- `norm_name` is the lowercased words of its input joined by single
spaces. -/
theorem norm_name_words (s : Str) :
    norm_name s = pyJoin [' '] ((wordsOf s).map (List.map lowerChar)) := by
  rw [norm_name, collapse_pyStrip, pyJoin_map_lower]

/-- `norm_name` depends only on the whitespace decomposition of the
lowercased input. -/
theorem norm_name_words_lower (s : Str) :
    norm_name s = pyJoin [' '] (wordsOf (s.map lowerChar)) := by
  rw [norm_name_words, wordsOf_map lowerChar_pyIsSpace]

theorem lowered_words_wf (s : Str) :
    ∀ w ∈ (wordsOf s).map (List.map lowerChar),
      w ≠ [] ∧ w.all (fun c => !pyIsSpace c) = true := by
  intro w hw
  rw [List.mem_map] at hw
  obtain ⟨v, hv, rfl⟩ := hw
  obtain ⟨hne, hall⟩ := wordsOf_mem_wf hv
  refine ⟨by simpa using hne, ?_⟩
  rw [List.all_eq_true] at hall ⊢
  intro x hx
  rw [List.mem_map] at hx
  obtain ⟨y, hy, rfl⟩ := hx
  have := hall y hy
  simpa [lowerChar_pyIsSpace] using this

theorem wordsOf_pad (w1 s w2 : Str) (h1 : w1.all pyIsSpace = true)
    (h2 : w2.all pyIsSpace = true) : wordsOf (w1 ++ s ++ w2) = wordsOf s := by
  have hback : wordsOf (s ++ w2) = wordsOf s := by
    cases w2 with
    | nil => rw [List.append_nil]
    | cons x xs =>
      have hsep := @wordsOf_sep_append s (x :: xs) [] (by simp) h2
      rw [List.append_nil] at hsep
      rw [hsep]
      have hnil : wordsOf ([] : Str) = [] := by simp [wordsOf]
      rw [hnil, List.append_nil]
  rw [List.append_assoc, wordsOf_allws_append _ h1, hback]

/-- C9: `norm_name` is idempotent, and two inputs normalize identically
whenever they differ only in letter case (their `lowerChar` images agree),
only in leading/trailing whitespace, or only in the length of an internal
whitespace run; `"Cleric  Robe"` and `"cleric robe"` normalize equal. -/
theorem c9_normalization_idempotent_insensitive :
    (∀ s : Str, norm_name (norm_name s) = norm_name s) ∧
    (∀ s t : Str, s.map lowerChar = t.map lowerChar →
      norm_name s = norm_name t) ∧
    (∀ w1 s w2 : Str, w1.all pyIsSpace = true → w2.all pyIsSpace = true →
      norm_name (w1 ++ s ++ w2) = norm_name s) ∧
    (∀ a r1 r2 b : Str, r1 ≠ [] → r2 ≠ [] → r1.all pyIsSpace = true →
      r2.all pyIsSpace = true →
      norm_name (a ++ r1 ++ b) = norm_name (a ++ r2 ++ b)) ∧
    norm_name "Cleric  Robe".data = norm_name "cleric robe".data := by
  refine ⟨?_, ?_, ?_, ?_, by decide⟩
  · intro s
    have h1 : wordsOf (norm_name s) = (wordsOf s).map (List.map lowerChar) := by
      rw [norm_name_words s]
      exact wordsOf_pyJoin _ (lowered_words_wf s)
    have hll : lowerChar ∘ lowerChar = lowerChar := funext lowerChar_lowerChar
    have h2 : (List.map lowerChar ∘ List.map lowerChar) =
        (List.map lowerChar : Str → Str) := by
      funext w
      simp [Function.comp, List.map_map, hll]
    rw [norm_name_words (norm_name s), h1, List.map_map, h2, ← norm_name_words s]
  · intro s t h
    rw [norm_name_words_lower s, norm_name_words_lower t, h]
  · intro w1 s w2 h1 h2
    rw [norm_name_words (w1 ++ s ++ w2), wordsOf_pad w1 s w2 h1 h2,
      ← norm_name_words s]
  · intro a r1 r2 b hr1 hr2 h1 h2
    rw [norm_name_words (a ++ r1 ++ b), norm_name_words (a ++ r2 ++ b),
      wordsOf_sep_append a b hr1 h1, wordsOf_sep_append a b hr2 h2]

/-- Instance of C9 at concrete inputs: padding an internal whitespace run
does not change the normal form. -/
theorem c9_instance :
    norm_name ("Cleric".data ++ " ".data ++ "Robe".data) =
      norm_name ("Cleric".data ++ "   ".data ++ "Robe".data) :=
  c9_normalization_idempotent_insensitive.2.2.2.1 "Cleric".data " ".data
    "   ".data "Robe".data (by decide) (by decide) (by decide) (by decide)

/-! ### Facts about the tier token -/

theorem hasTierPrefix_cons (d : Char) (rest : Str) :
    hasTierPrefix ('T' :: d :: '_' :: rest) = decide ('1' ≤ d ∧ d ≤ '8') := rfl

theorem extract_tier_cons (d : Char) (rest : Str) :
    extract_tier_from_ident ('T' :: d :: '_' :: rest) =
      if '1' ≤ d ∧ d ≤ '8' then (d.toNat : Int) - 48 else -1 := rfl

theorem hasTierPrefix_iff {s : Str} :
    hasTierPrefix s = true ↔
      ∃ d rest, s = 'T' :: d :: '_' :: rest ∧ '1' ≤ d ∧ d ≤ '8' := by
  constructor
  · intro h
    unfold hasTierPrefix at h
    split at h
    · rename_i d rest
      refine ⟨d, rest, rfl, ?_⟩
      simpa using h
    · simp at h
  · rintro ⟨d, rest, rfl, h1, h8⟩
    rw [hasTierPrefix_cons]
    simp [h1, h8]

theorem hasTierPrefix_append {s : Str} (t : Str) (h : hasTierPrefix s = true) :
    hasTierPrefix (s ++ t) = true := by
  obtain ⟨d, rest, rfl, h1, h8⟩ := hasTierPrefix_iff.mp h
  simp only [List.cons_append]
  rw [hasTierPrefix_cons]
  simp [h1, h8]

theorem extract_tier_append {s : Str} (t : Str) (h : hasTierPrefix s = true) :
    extract_tier_from_ident (s ++ t) = extract_tier_from_ident s := by
  obtain ⟨d, rest, rfl, h1, h8⟩ := hasTierPrefix_iff.mp h
  simp only [List.cons_append]
  rw [extract_tier_cons, extract_tier_cons]

/-- C3: with an explicit tier `t` in 1-8 and a base identifier without an
embedded tier token, `build_identifier` prepends `T<t>_` to the base
identifier; in every case the `@<enchant>` suffix is appended exactly when
the enchantment is non-zero; Guardian Helmet's `HEAD_PLATE_SET3` at tier 6
gives `T6_HEAD_PLATE_SET3` and Cleric Robe's `ARMOR_CLOTH_SET2` at tier 6
enchantment 1 gives `T6_ARMOR_CLOTH_SET2@1`. -/
theorem c3_explicit_tier_prepend_enchant_suffix :
    (∀ (base_ident : Str) (t e : Int), hasTierPrefix base_ident = false →
      1 ≤ t → t ≤ 8 →
      build_identifier base_ident t e =
        .ok (("T".data ++ intToStr t ++ "_".data ++ base_ident) ++
          (if e = 0 then [] else "@".data ++ intToStr e), t)) ∧
    (∀ (base_ident : Str) (t e : Int), hasTierPrefix base_ident = true →
      build_identifier base_ident t e =
        .ok (base_ident ++ (if e = 0 then [] else "@".data ++ intToStr e),
          extract_tier_from_ident base_ident)) ∧
    build_identifier "HEAD_PLATE_SET3".data 6 0 =
      .ok ("T6_HEAD_PLATE_SET3".data, 6) ∧
    build_identifier "ARMOR_CLOTH_SET2".data 6 1 =
      .ok ("T6_ARMOR_CLOTH_SET2@1".data, 6) := by
  refine ⟨?_, ?_, rfl, rfl⟩
  · intro base_ident t e hb h1 h8
    have ht : ¬ t = -1 := by omega
    unfold build_identifier
    rw [if_neg (by simp [hb]), if_neg ht]
    by_cases he : e = 0
    · simp [he]
    · simp [he, List.append_assoc]
  · intro base_ident t e hb
    unfold build_identifier
    rw [if_pos (by simp [hb])]
    by_cases he : e = 0
    · simp [he]
    · simp [he, List.append_assoc]

/-- Instance of C3's general clause: tier 4 on a prefix-free identifier. -/
theorem c3_instance :
    build_identifier "OFF_SHIELD".data 4 2 =
      .ok (("T".data ++ intToStr 4 ++ "_".data ++ "OFF_SHIELD".data) ++
        (if (2 : Int) = 0 then [] else "@".data ++ intToStr 2), 4) :=
  c3_explicit_tier_prepend_enchant_suffix.1 "OFF_SHIELD".data 4 2 (by decide)
    (by decide) (by decide)

theorem tierToken_prepend (t : Int) (h1 : 1 ≤ t) (h8 : t ≤ 8) (rest : Str) :
    hasTierPrefix ("T".data ++ intToStr t ++ "_".data ++ rest) = true ∧
    extract_tier_from_ident ("T".data ++ intToStr t ++ "_".data ++ rest) = t := by
  have hstep : ∀ c : Char, intToStr t = [c] → '1' ≤ c → c ≤ '8' →
      (c.toNat : Int) - 48 = t →
      hasTierPrefix ("T".data ++ intToStr t ++ "_".data ++ rest) = true ∧
      extract_tier_from_ident ("T".data ++ intToStr t ++ "_".data ++ rest) = t := by
    intro c hd hc1 hc8 hct
    rw [hd]
    simp only [List.cons_append, List.nil_append, List.singleton_append]
    rw [hasTierPrefix_cons, extract_tier_cons]
    refine ⟨by simp [hc1, hc8], ?_⟩
    rw [if_pos ⟨hc1, hc8⟩, hct]
  interval_cases t
  · exact hstep '1' (by decide) (by decide) (by decide) (by decide)
  · exact hstep '2' (by decide) (by decide) (by decide) (by decide)
  · exact hstep '3' (by decide) (by decide) (by decide) (by decide)
  · exact hstep '4' (by decide) (by decide) (by decide) (by decide)
  · exact hstep '5' (by decide) (by decide) (by decide) (by decide)
  · exact hstep '6' (by decide) (by decide) (by decide) (by decide)
  · exact hstep '7' (by decide) (by decide) (by decide) (by decide)
  · exact hstep '8' (by decide) (by decide) (by decide) (by decide)

/-- Case analysis of a successful `build_identifier` call. -/
theorem build_identifier_ok_shape {base_ident : Str} {tier ench : Int}
    {ident : Str} {t : Int}
    (hok : build_identifier base_ident tier ench = .ok (ident, t)) :
    (hasTierPrefix base_ident = true ∧ t = extract_tier_from_ident base_ident ∧
      ident = base_ident ++ (if ench = 0 then [] else "@".data ++ intToStr ench)) ∨
    (hasTierPrefix base_ident = false ∧ ¬ tier = -1 ∧ t = tier ∧
      ident = ("T".data ++ intToStr tier ++ "_".data ++ base_ident) ++
        (if ench = 0 then [] else "@".data ++ intToStr ench)) := by
  unfold build_identifier at hok
  by_cases hb : hasTierPrefix base_ident = true
  · rw [if_pos hb] at hok
    left
    refine ⟨hb, ?_, ?_⟩
    · by_cases he : ench = 0 <;> simp [he] at hok <;> omega
    · by_cases he : ench = 0
      · simp [he] at hok ⊢
        rw [← hok.1]
      · simp [he, List.append_assoc] at hok ⊢
        rw [← hok.1]
  · rw [if_neg hb] at hok
    by_cases ht : tier = -1
    · rw [if_pos ht] at hok
      exact absurd hok (by simp)
    · rw [if_neg ht] at hok
      right
      refine ⟨bool_eq_false hb, ht, ?_, ?_⟩
      · by_cases he : ench = 0 <;> simp [he] at hok <;> omega
      · by_cases he : ench = 0
        · simp [he] at hok ⊢
          rw [← hok.1]
        · simp [he, List.append_assoc] at hok ⊢
          rw [← hok.1]

/-- C10: every identifier produced by a successful `build_identifier` call
whose inputs satisfy the resolver's guarantees (embedded tier token present,
or validated explicit tier 1-8) itself starts with a `T<d>_` token, `d` in
1-8, and that token's digit is the returned tier. -/
theorem c10_identifier_always_has_tier_token (base_ident : Str)
    (tier ench : Int) (ident : Str) (t : Int)
    (hok : build_identifier base_ident tier ench = .ok (ident, t))
    (hv : hasTierPrefix base_ident = true ∨ (1 ≤ tier ∧ tier ≤ 8)) :
    hasTierPrefix ident = true ∧ extract_tier_from_ident ident = t := by
  rcases build_identifier_ok_shape hok with ⟨hb, ht, hi⟩ | ⟨hb, hne, ht, hi⟩
  · subst hi
    exact ⟨hasTierPrefix_append _ hb, by rw [extract_tier_append _ hb, ht]⟩
  · rcases hv with hv | ⟨h1, h8⟩
    · rw [hb] at hv
      simp at hv
    · subst hi
      have htok := tierToken_prepend tier h1 h8 base_ident
      exact ⟨hasTierPrefix_append _ htok.1, by
        rw [extract_tier_append _ htok.1, htok.2, ht]⟩

/-- Instance of C10: the Mule identifier keeps its `T2_` token. -/
theorem c10_instance :
    hasTierPrefix "T2_MOUNT_MULE@1".data = true ∧
    extract_tier_from_ident "T2_MOUNT_MULE@1".data = 2 :=
  c10_identifier_always_has_tier_token "T2_MOUNT_MULE".data (-1) 1
    "T2_MOUNT_MULE@1".data 2 rfl (Or.inl (by decide))

/-- C1: when the looked-up base identifier carries an embedded tier token
`T<d>_`, resolution succeeds for every request; the resolved tier is the
embedded digit `d` whatever tier the request supplied; a supplied tier that
differs from `d` sets only the override-diagnostic flag (the request does
not fail and its original text is untouched); and the base identifier is the
core token, unchanged but for the enchantment suffix. -/
theorem c1_embedded_tier_wins (m : List (Str × Str)) (r : Req) (d : Char)
    (rest : Str)
    (hlk : m.lookup (norm_name r.name) = some ('T' :: d :: '_' :: rest))
    (h1 : '1' ≤ d) (h8 : d ≤ '8') :
    resolveEntry m r = .ok
      { ident := ('T' :: d :: '_' :: rest) ++
          (if r.enchant = 0 then [] else "@".data ++ intToStr r.enchant),
        url := build_url (('T' :: d :: '_' :: rest) ++
          (if r.enchant = 0 then [] else "@".data ++ intToStr r.enchant)) r.quality,
        filename := build_filename r.name ((d.toNat : Int) - 48) r.enchant r.quality,
        tierForFilename := (d.toNat : Int) - 48,
        warnedOverride := decide (r.tier ≠ -1 ∧
          r.tier ≠ (d.toNat : Int) - 48) } := by
  have hpre : hasTierPrefix ('T' :: d :: '_' :: rest) = true := by
    rw [hasTierPrefix_cons]
    simp [h1, h8]
  have hext : extract_tier_from_ident ('T' :: d :: '_' :: rest) =
      (d.toNat : Int) - 48 := by
    rw [extract_tier_cons, if_pos ⟨h1, h8⟩]
  have hbuild : build_identifier ('T' :: d :: '_' :: rest) r.tier r.enchant =
      .ok (('T' :: d :: '_' :: rest) ++
        (if r.enchant = 0 then [] else "@".data ++ intToStr r.enchant),
        (d.toNat : Int) - 48) := by
    unfold build_identifier
    rw [if_pos (by simp [hpre]), hext]
    by_cases he : r.enchant = 0
    · simp [he]
    · simp [he, List.append_assoc]
  unfold resolveEntry
  rw [hlk]
  simp only [hpre, Bool.true_eq_false, false_and, if_neg (by simp : ¬(False ∧ r.tier = -1))]
  rw [hbuild]
  simp [hpre, hext]

/-- Instance of C1: "Mule" maps to `T2_MOUNT_MULE`; supplying tier 5 still
resolves to tier 2, with the override diagnostic flag set. -/
theorem c1_instance :
    resolveEntry itemsSample ⟨"Mule".data, 5, 0, 1, "Mule, 5".data⟩ = .ok
      { ident := "T2_MOUNT_MULE".data,
        url := "https://render.albiononline.com/v1/item/T2_MOUNT_MULE.png".data,
        filename := "Mule 2.png".data,
        tierForFilename := 2,
        warnedOverride := true } :=
  c1_embedded_tier_wins itemsSample ⟨"Mule".data, 5, 0, 1, "Mule, 5".data⟩ '2'
    "MOUNT_MULE".data rfl (by decide) (by decide)

theorem build_identifier_ok_of {base_ident : Str} {tier : Int} (ench : Int)
    (h : ¬(hasTierPrefix base_ident = false ∧ tier = -1)) :
    ∃ pr, build_identifier base_ident tier ench = .ok pr := by
  unfold build_identifier
  by_cases hb : hasTierPrefix base_ident = true
  · rw [if_pos hb]
    exact ⟨_, rfl⟩
  · have hb2 := bool_eq_false hb
    have ht : ¬ tier = -1 := fun hc => h ⟨hb2, hc⟩
    rw [if_neg hb, if_neg ht]
    exact ⟨_, rfl⟩

theorem resolveEntry_of_lookup_none {m : List (Str × Str)} {r : Req}
    (hlk : m.lookup (norm_name r.name) = none) :
    resolveEntry m r = .error (.unknownItemName, r.original) := by
  unfold resolveEntry
  rw [hlk]

theorem resolveEntry_of_guard {m : List (Str × Str)} {r : Req} {base_ident : Str}
    (hlk : m.lookup (norm_name r.name) = some base_ident)
    (hg : hasTierPrefix base_ident = false ∧ r.tier = -1) :
    resolveEntry m r = .error (.tierRequired, r.original) := by
  unfold resolveEntry
  rw [hlk]
  simp [hg.1, hg.2]

theorem resolveEntry_ok_of {m : List (Str × Str)} {r : Req} {base_ident : Str}
    (hlk : m.lookup (norm_name r.name) = some base_ident)
    (hg : ¬(hasTierPrefix base_ident = false ∧ r.tier = -1)) :
    ∃ out, resolveEntry m r = .ok out := by
  obtain ⟨⟨ident, tfn⟩, hpr⟩ := build_identifier_ok_of r.enchant hg
  refine ⟨⟨ident, build_url ident r.quality,
    build_filename r.name tfn r.enchant r.quality, tfn,
    decide (hasTierPrefix base_ident = true ∧ r.tier ≠ -1 ∧
      r.tier ≠ extract_tier_from_ident base_ident)⟩, ?_⟩
  unfold resolveEntry
  rw [hlk]
  simp only [if_neg hg]
  rw [hpr]

theorem resolveEntry_error_original {m : List (Str × Str)} {r : Req}
    {e : FailReason × Str} (h : resolveEntry m r = .error e) :
    e.2 = r.original := by
  unfold resolveEntry at h
  cases hlk : m.lookup (norm_name r.name) with
  | none =>
    rw [hlk] at h
    simp at h
    rw [← h]
  | some base_ident =>
    rw [hlk] at h
    by_cases hg : hasTierPrefix base_ident = false ∧ r.tier = -1
    · simp only [if_pos hg] at h
      simp at h
      rw [← h]
    · obtain ⟨⟨ident, tfn⟩, hpr⟩ := build_identifier_ok_of r.enchant hg
      simp only [if_neg hg] at h
      rw [hpr] at h
      simp at h

theorem processEntry_error_original {m : List (Str × Str)}
    {fetchOk : Str → Bool} {r : Req} {reason : FailReason} {o : Str}
    (h : processEntry m fetchOk r = .error (reason, o)) : o = r.original := by
  unfold processEntry at h
  cases hre : resolveEntry m r with
  | error e =>
    rw [hre] at h
    have h2 := resolveEntry_error_original hre
    simp at h
    rw [h] at h2
    exact h2
  | ok out =>
    rw [hre] at h
    by_cases hf : fetchOk out.url = true
    · simp [hf] at h
    · simp [bool_eq_false hf] at h
      exact h.2.symm

theorem mainRun_run (m : List (Str × Str)) (lines : List Str)
    (fetchOk : Str → Bool) (hm : ¬ m = [])
    (hent : ¬ parseRequestsLines lines = []) :
    mainRun m true lines fetchOk =
      ⟨0,
       (parseRequestsLines lines).filterMap (fun r =>
         match processEntry m fetchOk r with
         | .ok out => some out.filename
         | .error _ => none),
       some (((parseRequestsLines lines).filterMap (fun r =>
         match processEntry m fetchOk r with
         | .ok _ => none
         | .error (_, o) => some o)).map pyRstrip)⟩ := by
  unfold mainRun parseRequestsFile
  rw [if_neg hm, if_pos rfl, if_neg hent]
  simp only [List.filterMap_map]
  rfl

/-- C2: resolution fails exactly when the normalized name is not in the
mapping (reason "unknown item name") or when the base identifier has no
embedded tier token and the tier is the `-1` sentinel (reason "tier
required"); every resolution failure carries the request's original text,
and in a run such failures leave the exit code at 0 and put the original
text (rstripped) into the rewritten request file. -/
theorem c2_resolution_failure_cases (m : List (Str × Str)) (r : Req) :
    (∀ reason o, resolveEntry m r = .error (reason, o) →
      o = r.original ∧ (reason = FailReason.unknownItemName ∨
        reason = FailReason.tierRequired)) ∧
    (resolveEntry m r = .error (.unknownItemName, r.original) ↔
      m.lookup (norm_name r.name) = none) ∧
    (resolveEntry m r = .error (.tierRequired, r.original) ↔
      ∃ base_ident, m.lookup (norm_name r.name) = some base_ident ∧
        hasTierPrefix base_ident = false ∧ r.tier = -1) ∧
    (∀ (lines : List Str) (fetchOk : Str → Bool) (reason : FailReason)
      (o : Str), ¬ m = [] → r ∈ parseRequestsLines lines →
      processEntry m fetchOk r = .error (reason, o) →
      (mainRun m true lines fetchOk).exitCode = 0 ∧
      pyRstrip o ∈ ((mainRun m true lines fetchOk).rewritten.getD [])) := by
  refine ⟨?_, ?_, ?_, ?_⟩
  · intro reason o h
    have ho := resolveEntry_error_original h
    refine ⟨ho, ?_⟩
    cases hlk : m.lookup (norm_name r.name) with
    | none =>
      have hre := resolveEntry_of_lookup_none hlk
      have h2 := hre.symm.trans h
      simp at h2
      exact Or.inl h2.1.symm
    | some base_ident =>
      by_cases hg : hasTierPrefix base_ident = false ∧ r.tier = -1
      · have hre := resolveEntry_of_guard hlk hg
        have h2 := hre.symm.trans h
        simp at h2
        exact Or.inr h2.1.symm
      · obtain ⟨out, hout⟩ := resolveEntry_ok_of hlk hg
        rw [hout] at h
        simp at h
  · constructor
    · intro h
      cases hlk : m.lookup (norm_name r.name) with
      | none => rfl
      | some base_ident =>
        by_cases hg : hasTierPrefix base_ident = false ∧ r.tier = -1
        · have hre := resolveEntry_of_guard hlk hg
          have h2 := hre.symm.trans h
          simp at h2
        · obtain ⟨out, hout⟩ := resolveEntry_ok_of hlk hg
          rw [hout] at h
          simp at h
    · intro hlk
      exact resolveEntry_of_lookup_none hlk
  · constructor
    · intro h
      cases hlk : m.lookup (norm_name r.name) with
      | none =>
        have hre := resolveEntry_of_lookup_none hlk
        have h2 := hre.symm.trans h
        simp at h2
      | some base_ident =>
        by_cases hg : hasTierPrefix base_ident = false ∧ r.tier = -1
        · exact ⟨base_ident, rfl, hg.1, hg.2⟩
        · obtain ⟨out, hout⟩ := resolveEntry_ok_of hlk hg
          rw [hout] at h
          simp at h
    · rintro ⟨base_ident, hlk, hb, ht⟩
      exact resolveEntry_of_guard hlk ⟨hb, ht⟩
  · intro lines fetchOk reason o hm hr hp
    have hent : ¬ parseRequestsLines lines = [] := by
      intro hc
      rw [hc] at hr
      simp at hr
    rw [mainRun_run m lines fetchOk hm hent]
    refine ⟨rfl, ?_⟩
    simp only [Option.getD_some]
    refine List.mem_map_of_mem pyRstrip ?_
    refine List.mem_filterMap.mpr ⟨r, hr, ?_⟩
    rw [hp]

/-- Instance of C2: an unknown name fails with "unknown item name" and the
original text. -/
theorem c2_instance :
    resolveEntry itemsSample ⟨"Not A Real Item".data, 3, 0, 1,
      "Not A Real Item, 3".data⟩ =
    .error (.unknownItemName, "Not A Real Item, 3".data) :=
  (c2_resolution_failure_cases itemsSample ⟨"Not A Real Item".data, 3, 0, 1,
    "Not A Real Item, 3".data⟩).2.1.mpr (by decide)

theorem safe_file_stem_map (s : Str) :
    safe_file_stem s = s.map (fun c => if c = '/' || c = '\\' then '-' else c) := by
  unfold safe_file_stem replaceChar
  rw [List.map_map]
  refine List.map_congr_left fun c _ => ?_
  by_cases h1 : c = '/'
  · simp [h1, Function.comp]
  · by_cases h2 : c = '\\' <;> simp [h1, h2, Function.comp]

/-- C7: the display filename is the slash-escaped display name, a space, the
resolved tier, `.<enchant>` exactly when enchant > 0, a space and the
quality word exactly when quality > 1, then `.png`; a successful resolution
uses exactly this filename; Cleric Robe at tier 6, enchant 1, quality 4
gives `Cleric Robe 6.1 Excellent.png`. -/
theorem c7_filename_construction :
    (∀ (name : Str) (t e q : Int), build_filename name t e q =
      (name.map (fun c => if c = '/' || c = '\\' then '-' else c)) ++ " ".data ++
        intToStr t ++ (if e > 0 then ".".data ++ intToStr e else []) ++
        (if q > 1 then " ".data ++ qualityWordGet q else []) ++ ".png".data) ∧
    (∀ (m : List (Str × Str)) (r : Req) (out : ResOk),
      resolveEntry m r = .ok out →
      out.filename = build_filename r.name out.tierForFilename r.enchant
        r.quality) ∧
    build_filename "Cleric Robe".data 6 1 4 =
      "Cleric Robe 6.1 Excellent.png".data := by
  refine ⟨?_, ?_, by decide⟩
  · intro name t e q
    unfold build_filename
    rw [safe_file_stem_map]
    by_cases he : e > 0 <;> by_cases hq : q > 1 <;>
      simp [he, hq, List.append_assoc]
  · intro m r out h
    unfold resolveEntry at h
    cases hlk : m.lookup (norm_name r.name) with
    | none =>
      rw [hlk] at h
      simp at h
    | some base_ident =>
      rw [hlk] at h
      by_cases hg : hasTierPrefix base_ident = false ∧ r.tier = -1
      · simp only [if_pos hg] at h
        simp at h
      · simp only [if_neg hg] at h
        cases hb : build_identifier base_ident r.tier r.enchant with
        | error msg =>
          rw [hb] at h
          simp at h
        | ok pr =>
          obtain ⟨ident, tfn⟩ := pr
          rw [hb] at h
          simp at h
          rw [← h]

/-- Instance of C7: the filename of a resolved entry matches
`build_filename`. -/
theorem c7_instance :
    ResOk.filename
      { ident := "T6_HEAD_PLATE_SET3".data,
        url := build_url "T6_HEAD_PLATE_SET3".data 1,
        filename := build_filename "Guardian Helmet".data 6 0 1,
        tierForFilename := 6, warnedOverride := false } =
      build_filename "Guardian Helmet".data 6 0 1 :=
  c7_filename_construction.2.1 itemsSample
    ⟨"Guardian Helmet".data, 6, 0, 1, "Guardian Helmet, 6".data⟩
    { ident := "T6_HEAD_PLATE_SET3".data,
      url := build_url "T6_HEAD_PLATE_SET3".data 1,
      filename := build_filename "Guardian Helmet".data 6 0 1,
      tierForFilename := 6, warnedOverride := false } rfl

/-- C8: quality 1 contributes neither a filename word nor a query
parameter; for quality other than 1 the URL carries `?quality=<q>`; the URL
is always the base URL, the identifier and `.png`; qualities 2-5 map to
their words. -/
theorem c8_quality_never_one_in_outputs :
    (∀ identifier : Str,
      build_url identifier 1 = BASE_URL ++ identifier ++ ".png".data) ∧
    (∀ (identifier : Str) (q : Int), ¬ q = 1 →
      build_url identifier q =
        BASE_URL ++ identifier ++ ".png?quality=".data ++ intToStr q) ∧
    (∀ (name : Str) (t e : Int), build_filename name t e 1 =
      safe_file_stem name ++ " ".data ++ intToStr t ++
        (if e > 0 then ".".data ++ intToStr e else []) ++ ".png".data) ∧
    (∀ (name : Str) (t e q : Int), 2 ≤ q → q ≤ 5 →
      build_filename name t e q =
        safe_file_stem name ++ " ".data ++ intToStr t ++
          (if e > 0 then ".".data ++ intToStr e else []) ++ " ".data ++
          qualityWordGet q ++ ".png".data) ∧
    qualityWordGet 2 = "Good".data ∧ qualityWordGet 3 = "Outstanding".data ∧
    qualityWordGet 4 = "Excellent".data ∧
    qualityWordGet 5 = "Masterpiece".data := by
  refine ⟨?_, ?_, ?_, ?_, rfl, rfl, rfl, rfl⟩
  · intro identifier
    unfold build_url
    rw [if_pos rfl]
  · intro identifier q hq
    unfold build_url
    rw [if_neg hq]
  · intro name t e
    unfold build_filename
    by_cases he : e > 0 <;> simp [he, List.append_assoc]
  · intro name t e q h2 h5
    unfold build_filename
    have hq : (1 : Int) < q := by omega
    by_cases he : e > 0 <;> simp [he, hq, List.append_assoc]

/-- Instance of C8: quality 5 appends the Masterpiece word. -/
theorem c8_instance :
    build_filename "Bow".data 3 0 5 =
      safe_file_stem "Bow".data ++ " ".data ++ intToStr 3 ++
        (if (0 : Int) > 0 then ".".data ++ intToStr 0 else []) ++ " ".data ++
        qualityWordGet 5 ++ ".png".data :=
  c8_quality_never_one_in_outputs.2.2.2.1 "Bow".data 3 0 5 (by decide)
    (by decide)

theorem pyInt_nil : pyInt [] = none := rfl

/-- Characterisation of an accepted request row: fields are the parsed
columns and all three numeric fields passed the range validation. -/
theorem parseRow_accepted {row : List Str} {r : Req}
    (h : parseRow row = .accepted r) :
    r.original = pyJoin ", ".data (row.map pyStrip) ∧
    r.tier = tierOfCols (row.map pyStrip) ∧
    r.enchant = enchantOfCols (row.map pyStrip) ∧
    r.quality = qualityOfCols (row.map pyStrip) ∧
    (r.tier = -1 ∨ (1 ≤ r.tier ∧ r.tier ≤ 8)) ∧
    (0 ≤ r.enchant ∧ r.enchant ≤ 4) ∧ (1 ≤ r.quality ∧ r.quality ≤ 5) := by
  simp only [parseRow] at h
  split at h
  · simp at h
  · split at h
    · simp at h
    · split at h
      · simp at h
      · rename_i cols name xrest hcols
        split at h
        · simp at h
        · split at h
          · simp at h
          · split at h
            · simp at h
            · split at h
              · simp at h
              · rename_i hv1 hv2 hv3
                simp at h
                rw [← h]
                rw [hcols] at hv1 hv2 hv3
                simp only [hcols]
                refine ⟨trivial, trivial, trivial, trivial, ?_, ?_, ?_⟩ <;> omega

theorem parseRow_reaches_validation {row : List Str} {name t1 : Str}
    {xrest : List Str} (hcols : row.map pyStrip = name :: t1 :: xrest)
    (hname : ¬ name = []) :
    parseRow row =
      (if tierOfCols (name :: t1 :: xrest) ≠ -1 ∧
          ¬(1 ≤ tierOfCols (name :: t1 :: xrest) ∧
            tierOfCols (name :: t1 :: xrest) ≤ 8) then .dropped
       else if ¬(0 ≤ enchantOfCols (name :: t1 :: xrest) ∧
          enchantOfCols (name :: t1 :: xrest) ≤ 4) then .dropped
       else if ¬(1 ≤ qualityOfCols (name :: t1 :: xrest) ∧
          qualityOfCols (name :: t1 :: xrest) ≤ 5) then .dropped
       else .accepted ⟨name, tierOfCols (name :: t1 :: xrest),
         enchantOfCols (name :: t1 :: xrest),
         qualityOfCols (name :: t1 :: xrest),
         pyJoin ", ".data (name :: t1 :: xrest)⟩) := by
  have hrow : ¬ row = [] := by
    intro hc
    rw [hc] at hcols
    simp at hcols
  have hlen : ¬(row.length = 1 ∧ startsWithHash (pyLstrip (row.headD [])) = true) := by
    rintro ⟨h1, -⟩
    have h2 : (row.map pyStrip).length = 1 := by
      rw [List.length_map, h1]
    rw [hcols] at h2
    simp at h2
  simp only [parseRow]
  rw [if_neg hrow, if_neg hlen]
  simp only [hcols]
  rw [if_neg hname]

theorem tierOfCols_parsed {name t1 : Str} {xrest : List Str} {t : Int}
    (ht : pyInt t1 = some t) : tierOfCols (name :: t1 :: xrest) = t := by
  have ht1 : ¬ t1 = [] := by
    intro hc
    rw [hc, pyInt_nil] at ht
    simp at ht
  simp only [tierOfCols]
  simp only [List.getElem?_cons_succ, List.getElem?_cons_zero]
  rw [if_neg ht1, ht]
  rfl

theorem enchantOfCols_parsed {name t1 e1 : Str} {xrest : List Str} {e : Int}
    (he : pyInt e1 = some e) :
    enchantOfCols (name :: t1 :: e1 :: xrest) = e := by
  have he1 : ¬ e1 = [] := by
    intro hc
    rw [hc, pyInt_nil] at he
    simp at he
  simp only [enchantOfCols]
  simp only [List.getElem?_cons_succ, List.getElem?_cons_zero]
  rw [if_neg he1, he]
  rfl

theorem qualityOfCols_parsed {name t1 e1 q1 : Str} {xrest : List Str} {q : Int}
    (hq : pyInt q1 = some q) :
    qualityOfCols (name :: t1 :: e1 :: q1 :: xrest) = q := by
  have hq1 : ¬ q1 = [] := by
    intro hc
    rw [hc, pyInt_nil] at hq
    simp at hq
  simp only [qualityOfCols]
  simp only [List.getElem?_cons_succ, List.getElem?_cons_zero]
  rw [if_neg hq1, hq]
  rfl

theorem failed_filterMap_eq (m : List (Str × Str)) (fetchOk : Str → Bool)
    (entries : List Req) :
    (entries.filterMap fun r =>
      match processEntry m fetchOk r with
      | .ok _ => none
      | .error (_, o) => some o) =
    (entries.filter fun r =>
      match processEntry m fetchOk r with
      | .ok _ => false
      | .error _ => true).map Req.original := by
  induction entries with
  | nil => rfl
  | cons r rest ih =>
    rw [List.filterMap_cons, List.filter_cons]
    cases hp : processEntry m fetchOk r with
    | ok out => simp [hp, ih]
    | error e =>
      obtain ⟨re, o⟩ := e
      have ho : o = r.original := processEntry_error_original hp
      simp [hp, ho, ih]

theorem mainRun_rewritten_none_of_no_entries (m : List (Str × Str))
    (lines : List Str) (fetchOk : Str → Bool)
    (hent : parseRequestsLines lines = []) :
    (mainRun m true lines fetchOk).rewritten = none := by
  unfold mainRun parseRequestsFile
  by_cases hm : m = []
  · rw [if_pos hm]
  · rw [if_neg hm, if_pos rfl, hent, if_pos rfl]

theorem parseRow_dropped_of_tier {row : List Str} {name t1 : Str}
    {xrest : List Str} {t : Int}
    (hcols : row.map pyStrip = name :: t1 :: xrest) (hname : ¬ name = [])
    (ht : pyInt t1 = some t) (hne : ¬ t = -1) (hr : ¬(1 ≤ t ∧ t ≤ 8)) :
    parseRow row = .dropped := by
  rw [parseRow_reaches_validation hcols hname, tierOfCols_parsed ht,
    if_pos ⟨hne, hr⟩]

theorem parseRow_dropped_of_enchant {row : List Str} {name t1 e1 : Str}
    {xrest : List Str} {e : Int}
    (hcols : row.map pyStrip = name :: t1 :: e1 :: xrest) (hname : ¬ name = [])
    (he : pyInt e1 = some e) (hr : ¬(0 ≤ e ∧ e ≤ 4)) :
    parseRow row = .dropped := by
  rw [parseRow_reaches_validation hcols hname, enchantOfCols_parsed he]
  by_cases h1 : tierOfCols (name :: t1 :: e1 :: xrest) ≠ -1 ∧
      ¬(1 ≤ tierOfCols (name :: t1 :: e1 :: xrest) ∧
        tierOfCols (name :: t1 :: e1 :: xrest) ≤ 8)
  · rw [if_pos h1]
  · rw [if_neg h1, if_pos hr]

theorem parseRow_dropped_of_quality {row : List Str} {name t1 e1 q1 : Str}
    {xrest : List Str} {q : Int}
    (hcols : row.map pyStrip = name :: t1 :: e1 :: q1 :: xrest)
    (hname : ¬ name = []) (hq : pyInt q1 = some q) (hr : ¬(1 ≤ q ∧ q ≤ 5)) :
    parseRow row = .dropped := by
  rw [parseRow_reaches_validation hcols hname, qualityOfCols_parsed hq]
  by_cases h1 : tierOfCols (name :: t1 :: e1 :: q1 :: xrest) ≠ -1 ∧
      ¬(1 ≤ tierOfCols (name :: t1 :: e1 :: q1 :: xrest) ∧
        tierOfCols (name :: t1 :: e1 :: q1 :: xrest) ≤ 8)
  · rw [if_pos h1]
  · rw [if_neg h1]
    by_cases h2 : ¬(0 ≤ enchantOfCols (name :: t1 :: e1 :: q1 :: xrest) ∧
        enchantOfCols (name :: t1 :: e1 :: q1 :: xrest) ≤ 4)
    · rw [if_pos h2]
    · rw [if_neg h2, if_pos hr]

theorem rewritten_only_accepted {m : List (Str × Str)} {lines : List Str}
    {fetchOk : Str → Bool} {out : List Str} {s : Str}
    (hrw : (mainRun m true lines fetchOk).rewritten = some out)
    (hs : s ∈ out) :
    ∃ line ∈ lines, ∃ r : Req,
      parseRow (csvRowSimple line) = .accepted r ∧ s = pyRstrip r.original := by
  by_cases hm : m = []
  · rw [hm] at hrw
    unfold mainRun at hrw
    rw [if_pos rfl] at hrw
    simp at hrw
  by_cases hent : parseRequestsLines lines = []
  · rw [mainRun_rewritten_none_of_no_entries m lines fetchOk hent] at hrw
    simp at hrw
  rw [mainRun_run m lines fetchOk hm hent] at hrw
  simp only [Option.some.injEq] at hrw
  rw [← hrw] at hs
  rw [List.mem_map] at hs
  obtain ⟨o, ho_mem, ho_eq⟩ := hs
  rw [List.mem_filterMap] at ho_mem
  obtain ⟨r, hr_mem, hr_eq⟩ := ho_mem
  have ho_orig : o = r.original := by
    cases hp : processEntry m fetchOk r with
    | ok o2 =>
      rw [hp] at hr_eq
      simp at hr_eq
    | error e =>
      obtain ⟨re, o2⟩ := e
      rw [hp] at hr_eq
      simp at hr_eq
      rw [← hr_eq]
      exact processEntry_error_original hp
  unfold parseRequestsLines at hr_mem
  rw [List.mem_filterMap] at hr_mem
  obtain ⟨row, hrow_mem, hrow_eq⟩ := hr_mem
  rw [List.mem_map] at hrow_mem
  obtain ⟨line, hline_mem, hline_eq⟩ := hrow_mem
  refine ⟨line, hline_mem, r, ?_, ?_⟩
  · rw [hline_eq]
    cases hpr : parseRow row with
    | accepted r2 =>
      rw [hpr] at hrow_eq
      simp at hrow_eq
      rw [hrow_eq]
    | skipped =>
      rw [hpr] at hrow_eq
      simp at hrow_eq
    | dropped =>
      rw [hpr] at hrow_eq
      simp at hrow_eq
  · rw [← ho_eq, ho_orig]

/-- C4 fails as stated: the input line `Foo,3` (no space after the comma)
fails resolution, but the rewritten file holds `Foo, 3` — the fields
stripped and re-joined with comma-space — not the verbatim line. -/
theorem c4_counterexample :
    (mainRun itemsSample true ["Foo,3".data] (fun _ => true)).rewritten =
      some ["Foo, 3".data] ∧
    ¬ ("Foo, 3".data : Str) = "Foo,3".data := by
  refine ⟨by decide, by decide⟩

/-- C4 (amended): at the end of a run with at least one valid entry, the
request file holds exactly the failed entries, in input order, one per line;
each line is the entry's stored text — the original line's fields stripped
of surrounding whitespace and re-joined with ", " (verbatim only when the
line was already in that form) — further rstripped at write time.  When no
valid entry was parsed the file is not rewritten at all. -/
theorem c4_rewrite_recomposed_failed_lines :
    (∀ (row : List Str) (r : Req), parseRow row = .accepted r →
      r.original = pyJoin ", ".data (row.map pyStrip)) ∧
    (∀ (m : List (Str × Str)) (lines : List Str) (fetchOk : Str → Bool),
      ¬ m = [] → ¬ parseRequestsLines lines = [] →
      (mainRun m true lines fetchOk).rewritten =
        some ((((parseRequestsLines lines).filter fun r =>
          match processEntry m fetchOk r with
          | .ok _ => false
          | .error _ => true).map Req.original).map pyRstrip)) ∧
    (∀ (m : List (Str × Str)) (lines : List Str) (fetchOk : Str → Bool),
      parseRequestsLines lines = [] →
      (mainRun m true lines fetchOk).rewritten = none) := by
  refine ⟨?_, ?_, ?_⟩
  · intro row r h
    exact (parseRow_accepted h).1
  · intro m lines fetchOk hm hent
    rw [mainRun_run m lines fetchOk hm hent]
    simp only
    rw [failed_filterMap_eq]
  · intro m lines fetchOk hent
    exact mainRun_rewritten_none_of_no_entries m lines fetchOk hent

/-- Instance of C4 (amended): one resolvable and one unresolvable line; the
file afterwards holds exactly the unresolvable entry's stored text. -/
theorem c4_instance :
    (mainRun itemsSample true ["Mule".data, "Nope, 4".data]
      (fun _ => true)).rewritten = some ["Nope, 4".data] :=
  c4_rewrite_recomposed_failed_lines.2.1 itemsSample
    ["Mule".data, "Nope, 4".data] (fun _ => true) (by decide) (by decide)

/-- C5 fails as stated: the line `Guardian Helmet, x` has a malformed tier
field, yet it is not dropped — the tier is treated as omitted, the request
reaches the resolver, fails there with "tier required", and is retained in
the rewritten file. -/
theorem c5_counterexample :
    parseRow (csvRowSimple "Guardian Helmet, x".data) =
      .accepted ⟨"Guardian Helmet".data, -1, 0, 1,
        "Guardian Helmet, x".data⟩ ∧
    (mainRun itemsSample true ["Guardian Helmet, x".data]
      (fun _ => true)).rewritten = some ["Guardian Helmet, x".data] := by
  refine ⟨by decide, by decide⟩

/-- C5 (amended): a tier/enchantment/quality field that parses as an integer
out of its valid range (tier 1-8, enchantment 0-4, quality 1-5) makes the
whole line be dropped with a diagnostic before resolution — with one
exception: a tier field that parses exactly to `-1` collides with the
omitted-tier sentinel, so the range check at download.py line 133 skips it
and the line is accepted as if the tier were omitted.  Only accepted lines
can reach the rewritten file; a field that is not a valid integer is not
dropped either: it is defaulted with a diagnostic (tier to the omitted
sentinel, enchantment to 0, quality to 1), and the line proceeds to the
resolver. -/
theorem c5_out_of_range_dropped :
    (∀ (row : List Str) (r : Req), parseRow row = .accepted r →
      (r.tier = -1 ∨ (1 ≤ r.tier ∧ r.tier ≤ 8)) ∧
      (0 ≤ r.enchant ∧ r.enchant ≤ 4) ∧ (1 ≤ r.quality ∧ r.quality ≤ 5)) ∧
    (∀ (row : List Str) (name t1 : Str) (xrest : List Str) (t : Int),
      row.map pyStrip = name :: t1 :: xrest → ¬ name = [] →
      pyInt t1 = some t → ¬ t = -1 → ¬(1 ≤ t ∧ t ≤ 8) →
      parseRow row = .dropped) ∧
    (∀ (row : List Str) (name t1 e1 : Str) (xrest : List Str) (e : Int),
      row.map pyStrip = name :: t1 :: e1 :: xrest → ¬ name = [] →
      pyInt e1 = some e → ¬(0 ≤ e ∧ e ≤ 4) → parseRow row = .dropped) ∧
    (∀ (row : List Str) (name t1 e1 q1 : Str) (xrest : List Str) (q : Int),
      row.map pyStrip = name :: t1 :: e1 :: q1 :: xrest → ¬ name = [] →
      pyInt q1 = some q → ¬(1 ≤ q ∧ q ≤ 5) → parseRow row = .dropped) ∧
    (∀ (row : List Str) (name t1 : Str) (xrest : List Str),
      row.map pyStrip = name :: t1 :: xrest → ¬ name = [] →
      pyInt t1 = some (-1) →
      (0 ≤ enchantOfCols (name :: t1 :: xrest) ∧
        enchantOfCols (name :: t1 :: xrest) ≤ 4) →
      (1 ≤ qualityOfCols (name :: t1 :: xrest) ∧
        qualityOfCols (name :: t1 :: xrest) ≤ 5) →
      parseRow row = .accepted ⟨name, -1, enchantOfCols (name :: t1 :: xrest),
        qualityOfCols (name :: t1 :: xrest),
        pyJoin ", ".data (name :: t1 :: xrest)⟩) ∧
    (∀ (m : List (Str × Str)) (lines : List Str) (fetchOk : Str → Bool)
      (out : List Str) (s : Str),
      (mainRun m true lines fetchOk).rewritten = some out → s ∈ out →
      ∃ line ∈ lines, ∃ r : Req,
        parseRow (csvRowSimple line) = .accepted r ∧
        s = pyRstrip r.original) := by
  refine ⟨?_, ?_, ?_, ?_, ?_, ?_⟩
  · intro row r h
    have h2 := parseRow_accepted h
    exact ⟨h2.2.2.2.2.1, h2.2.2.2.2.2⟩
  · intro row name t1 xrest t hcols hname ht hne hr
    exact parseRow_dropped_of_tier hcols hname ht hne hr
  · intro row name t1 e1 xrest e hcols hname he hr
    exact parseRow_dropped_of_enchant hcols hname he hr
  · intro row name t1 e1 q1 xrest q hcols hname hq hr
    exact parseRow_dropped_of_quality hcols hname hq hr
  · intro row name t1 xrest hcols hname ht hench hqual
    rw [parseRow_reaches_validation hcols hname, tierOfCols_parsed ht]
    rw [if_neg (fun hc => hc.1 rfl), if_neg (not_not_intro hench),
      if_neg (not_not_intro hqual)]
  · intro m lines fetchOk out s hrw hs
    exact rewritten_only_accepted hrw hs

/-- Instance of C5 (amended): an out-of-range tier 9 drops the line. -/
theorem c5_instance : parseRow (csvRowSimple "Mule, 9".data) = .dropped :=
  c5_out_of_range_dropped.2.1 (csvRowSimple "Mule, 9".data) "Mule".data
    "9".data [] 9 (by decide) (by decide) (by decide) (by decide) (by decide)

/-- C6 fails as stated: with the request-list file missing, the run stops
before any request processing (nothing downloaded, no rewrite) but the
process exits with code 0, not a non-zero outcome. -/
theorem c6_counterexample :
    mainRun itemsSample false ["Mule".data] (fun _ => true) =
      { exitCode := 0, downloaded := [], rewritten := none } := by decide

/-- C6 (amended): an empty lookup mapping is fatal — exit code 1, nothing
processed, no rewrite; a missing request-list file also stops the run before
any request processing, but with exit code 0; with a non-empty mapping the
exit code is always 0, however many individual requests fail. -/
theorem c6_fatal_configuration :
    (∀ (fe : Bool) (lines : List Str) (fetchOk : Str → Bool),
      mainRun [] fe lines fetchOk = ⟨1, [], none⟩) ∧
    (∀ (m : List (Str × Str)) (lines : List Str) (fetchOk : Str → Bool),
      ¬ m = [] → mainRun m false lines fetchOk = ⟨0, [], none⟩) ∧
    (∀ (m : List (Str × Str)) (fe : Bool) (lines : List Str)
      (fetchOk : Str → Bool), ¬ m = [] →
      (mainRun m fe lines fetchOk).exitCode = 0) := by
  refine ⟨?_, ?_, ?_⟩
  · intro fe lines fetchOk
    unfold mainRun
    rw [if_pos rfl]
  · intro m lines fetchOk hm
    unfold mainRun
    rw [if_neg hm]
    have h0 : parseRequestsFile false lines = [] := rfl
    rw [h0, if_pos rfl]
  · intro m fe lines fetchOk hm
    unfold mainRun
    rw [if_neg hm]
    by_cases hent : parseRequestsFile fe lines = []
    · rw [if_pos hent]
    · rw [if_neg hent]

/-- Instance of C6 (amended): per-request failures leave the exit code 0. -/
theorem c6_instance :
    (mainRun itemsSample true ["Nope".data] (fun _ => false)).exitCode = 0 :=
  c6_fatal_configuration.2.2 itemsSample true ["Nope".data] (fun _ => false)
    (by decide)
